import Mathlib

/-!
Verification development for the enzyme-catalog exporter
(`scripts/generate.py`).  The script reads raw enzyme entries from an
external catalog, derives overhang information, filters entries with
undefined cut sites, skips entries whose attribute lookups fail, sorts
the surviving records by name, and serializes them as a TypeScript
module containing a JSON array (2-space indentation).

The shallow embedding below models:
  * a raw catalog entry (`RawEnzyme`) whose attributes may be absent
    (outer `Option` = Python AttributeError on access) and whose cut
    fields may carry the value `None` (inner `Option`);
  * `get_overhang_info`, `extract_enzyme_data` and the per-entry loop
    body of `main` (`processEntry`);
  * Python `list.sort(key=lambda e: e["name"])` as a stable insertion
    sort by name (CPython list.sort is a stable sort; a stable sort is
    extensionally unique, so `List.insertionSort` with the reflexive
    name order computes the same function);
  * `json.dumps(enzymes, indent=2)` down to the character level,
    including `ensure_ascii` escaping, and `generate_typescript`;
  * a character-level decoder for the emitted JSON, used to state the
    round-trip property.
-/

namespace EnzymeGen

/-! ## Data model -/

/-- Python value stored in the `suppl` attribute: `None`, a string of
supplier codes, or a list of supplier-code strings. -/
inductive Suppl where
| null : Suppl
| str : String → Suppl
| list : List String → Suppl
deriving DecidableEq

/-- A raw catalog entry.  Outer `Option` on an attribute models the
attribute being absent (Python `AttributeError` when accessed); for the
cut fields the inner `Option` models the attribute holding `None`. -/
structure RawEnzyme where
  name : String
  site : Option String
  fst5 : Option (Option Int)
  fst3 : Option (Option Int)
  ovhg : Option Int
  suppl : Option Suppl
deriving DecidableEq

/-- The extracted record (the dict built by `extract_enzyme_data`).
`forwardCut` and `reverseCut` keep `Option Int` because the raw cut
fields are nullable upstream; the pipeline is what guarantees they are
present in emitted records. -/
structure Enzyme where
  name : String
  site : String
  forwardCut : Option Int
  reverseCut : Option Int
  overhangLength : Int
  overhangType : String
  suppliers : List String
deriving DecidableEq

/-! ## Extraction pipeline -/

/-- `get_overhang_info`: overhang length and type from the raw stagger. -/
def get_overhang_info (ovhg : Int) : Int × String :=
  if ovhg = 0 then (0, "blunt")
  else if ovhg < 0 then (abs ovhg, "5'")
  else (ovhg, "3'")

/-- Python truthiness of a `suppl` value. -/
def supplTruthy : Suppl → Bool
| Suppl.null => false
| Suppl.str s => !(s == "")
| Suppl.list l => !(l.isEmpty)

/-- Python `list(suppl)`: a string becomes the list of its one-character
strings, a list stays itself. -/
def listOfSuppl : Suppl → List String
| Suppl.null => []
| Suppl.str s => s.data.map (fun c => String.singleton c)
| Suppl.list l => l

/-- The expression `list(enzyme.suppl) if enzyme.suppl else []`. -/
def supplField (v : Suppl) : List String :=
  if supplTruthy v then listOfSuppl v else []

/-- `extract_enzyme_data`: builds the record dict; `none` models the
attribute errors that the caller catches. -/
def extract_enzyme_data (e : RawEnzyme) : Option Enzyme := do
  let ovhg ← e.ovhg
  let info := get_overhang_info ovhg
  let site ← e.site
  let f5 ← e.fst5
  let f3 ← e.fst3
  let sup ← e.suppl
  pure ⟨e.name, site, f5, f3, info.1, info.2, supplField sup⟩

/-- The body of the `for enzyme in AllEnzymes` loop in `main`: skip when
`fst5`/`fst3` is `None`, catch attribute errors, otherwise extract. -/
def processEntry (e : RawEnzyme) : Option Enzyme :=
  match e.fst5 with
  | none => none
  | some none => none
  | some (some _) =>
    match e.fst3 with
    | none => none
    | some none => none
    | some (some _) => extract_enzyme_data e

/-- Python string comparison: lexicographic on Unicode code points. -/
def strLeB : List Char → List Char → Bool
| [], _ => true
| _ :: _, [] => false
| a :: as, b :: bs =>
  if a.toNat < b.toNat then true
  else if b.toNat < a.toNat then false
  else strLeB as bs

/-- Sort order used by `enzymes.sort(key=lambda e: e["name"])`. -/
def nameLe (a b : Enzyme) : Prop := strLeB a.name.data b.name.data = true

instance : DecidableRel nameLe :=
  fun a b => inferInstanceAs (Decidable (strLeB a.name.data b.name.data = true))

/-- The filter-and-extract loop of `main`, before sorting. -/
def pipelineFiltered (raws : List RawEnzyme) : List Enzyme :=
  raws.filterMap processEntry

/-- The record list produced by `main` before serialization: filter,
extract, then stable sort by name. -/
def buildCatalog (raws : List RawEnzyme) : List Enzyme :=
  List.insertionSort nameLe (pipelineFiltered raws)

/-- The count printed by `main` (`len(enzymes)`). -/
def reportedCount (raws : List RawEnzyme) : Nat :=
  (buildCatalog raws).length

/-! ## Serialization: `json.dumps(enzymes, indent=2)` at character level -/

/-- Decimal digit character (codepoint 48 plus the digit). -/
def digitChar (d : Nat) : Char := Char.ofNat (48 + d % 10)

/-- Decimal digits of a natural number, most significant first. -/
def natChars (n : Nat) : List Char :=
  if _h : n < 10 then [digitChar n]
  else natChars (n / 10) ++ [digitChar (n % 10)]
decreasing_by exact Nat.div_lt_self (by omega) (by omega)

/-- Python `repr` of an int, as used by the JSON encoder. -/
def intChars (i : Int) : List Char :=
  if i < 0 then '-' :: natChars i.natAbs else natChars i.natAbs

/-- Lowercase hexadecimal digit character. -/
def hexDigitChar (d : Nat) : Char :=
  if d < 10 then digitChar d
  else if d = 10 then 'a'
  else if d = 11 then 'b'
  else if d = 12 then 'c'
  else if d = 13 then 'd'
  else if d = 14 then 'e'
  else 'f'

/-- Four lowercase hex digits, as in the JSON `\uXXXX` escape. -/
def hex4 (n : Nat) : List Char :=
  [hexDigitChar (n / 4096 % 16), hexDigitChar (n / 256 % 16),
   hexDigitChar (n / 16 % 16), hexDigitChar (n % 16)]

/-- `ensure_ascii` escaping of one character, following the CPython
`json` encoder: two-character escapes for the common controls, plain
printable ASCII kept, everything else as `\uXXXX` (with a surrogate
pair above the BMP). -/
def escChar (c : Char) : List Char :=
  if c = '"' then ['\\', '"']
  else if c = '\\' then ['\\', '\\']
  else if c = '\n' then ['\\', 'n']
  else if c = '\r' then ['\\', 'r']
  else if c = '\t' then ['\\', 't']
  else if c.toNat = 8 then ['\\', 'b']
  else if c.toNat = 12 then ['\\', 'f']
  else if 32 ≤ c.toNat ∧ c.toNat ≤ 126 then [c]
  else if c.toNat < 65536 then '\\' :: 'u' :: hex4 c.toNat
  else
    ('\\' :: 'u' :: hex4 (55296 + (c.toNat - 65536) / 1024))
      ++ ('\\' :: 'u' :: hex4 (56320 + (c.toNat - 65536) % 1024))

/-- Escape every character of a string body. -/
def escString : List Char → List Char
| [] => []
| c :: cs => escChar c ++ escString cs

/-- A JSON string literal with surrounding quotes. -/
def jsonStringChars (s : String) : List Char :=
  '"' :: (escString s.data ++ ['"'])

/-- A nullable JSON int (the cut fields). -/
def jsonOptInt : Option Int → List Char
| none => "null".data
| some i => intChars i

/-- Fixed text fragments of the 2-space-indented dump.  The key order is
the insertion order of the dict literal in `extract_enzyme_data`. -/
def kObjOpen : List Char := "\x7b\n    \"name\": ".data

def kSite : List Char := ",\n    \"site\": ".data

def kFwd : List Char := ",\n    \"forwardCut\": ".data

def kRev : List Char := ",\n    \"reverseCut\": ".data

def kOvL : List Char := ",\n    \"overhangLength\": ".data

def kOvT : List Char := ",\n    \"overhangType\": ".data

def kSup : List Char := ",\n    \"suppliers\": ".data

def kObjClose : List Char := "\n  \x7d".data

def kSupOpen : List Char := "[\n      ".data

def kSupSep : List Char := ",\n      ".data

def kSupClose : List Char := "\n    ]".data

def kArrOpen : List Char := "[\n  ".data

def kArrSep : List Char := ",\n  ".data

def kArrClose : List Char := "\n]".data

def kEmpty : List Char := "[]".data

/-- Second and later elements of the `suppliers` array. -/
def suppliersTail : List String → List Char
| [] => []
| s :: rest => kSupSep ++ (jsonStringChars s ++ suppliersTail rest)

/-- The `suppliers` array at nesting depth 2. -/
def suppliersChars : List String → List Char
| [] => kEmpty
| s :: rest => kSupOpen ++ (jsonStringChars s ++ (suppliersTail rest ++ kSupClose))

/-- One record object at nesting depth 1. -/
def objChars (e : Enzyme) : List Char :=
  kObjOpen ++ (jsonStringChars e.name
    ++ (kSite ++ (jsonStringChars e.site
    ++ (kFwd ++ (jsonOptInt e.forwardCut
    ++ (kRev ++ (jsonOptInt e.reverseCut
    ++ (kOvL ++ (intChars e.overhangLength
    ++ (kOvT ++ (jsonStringChars e.overhangType
    ++ (kSup ++ (suppliersChars e.suppliers ++ kObjClose)))))))))))))

/-- Second and later elements of the top-level array. -/
def catalogTail : List Enzyme → List Char
| [] => []
| e :: rest => kArrSep ++ (objChars e ++ catalogTail rest)

/-- The full `json.dumps(enzymes, indent=2)` character string. -/
def jsonCatalog : List Enzyme → List Char
| [] => kEmpty
| e :: rest => kArrOpen ++ (objChars e ++ (catalogTail rest ++ kArrClose))

def dumpsEnzymes (es : List Enzyme) : String := String.mk (jsonCatalog es)

/-! ## `generate_typescript` -/

def bannerLine1 : String :=
  "// Auto-generated from BioPython Bio.Restriction - DO NOT EDIT"

def bannerLine2 : String := "// Regenerate with: uv run generate-enzymes"

def importLine : String :=
  "import type \x7b RestrictionEnzyme \x7d from \"./types.js\";"

def exportLine : String := "export const enzymes: RestrictionEnzyme[] = "

/-- Python `"\n".join(lines)`. -/
def joinNL : List String → String
| [] => ""
| [a] => a
| a :: rest => a ++ ("\n" ++ joinNL rest)

/-- `generate_typescript`: banner, blank line, type import, blank line,
exported constant, JSON dump plus semicolon, joined by newlines, with a
final trailing newline. -/
def generate_typescript (enzymes : List Enzyme) : String :=
  joinNL ([bannerLine1, bannerLine2, "", importLine, "", exportLine]
    ++ [dumpsEnzymes enzymes ++ ";"]) ++ "\n"

/-- Everything `generate_typescript` emits before the JSON array. -/
def tsHeader : String :=
  bannerLine1 ++ ("\n" ++ (bannerLine2 ++ ("\n" ++ ("\n" ++ (importLine
    ++ ("\n" ++ ("\n" ++ (exportLine ++ "\n"))))))))

/-- The substring of the generated module standing between the header
and the closing `;\n`: the embedded JSON array. -/
def embeddedJson (s : String) : String :=
  String.mk (((s.data.drop tsHeader.data.length).dropLast).dropLast)

/-! ## Decoder for the embedded JSON -/

/-- Consume an expected literal prefix. -/
def expectLit : List Char → List Char → Option (List Char)
| [], s => some s
| _ :: _, [] => none
| c :: cs, d :: ds => if c = d then expectLit cs ds else none

/-- Decimal digit value (codepoints 48 through 57). -/
def digitVal (c : Char) : Option Nat :=
  if 48 ≤ c.toNat ∧ c.toNat ≤ 57 then some (c.toNat - 48) else none

/-- Greedily consume decimal digits, folding them onto `acc`. -/
def parseNatAux : List Char → Nat → Nat × List Char
| [], acc => (acc, [])
| c :: cs, acc =>
  match digitVal c with
  | some d => parseNatAux cs (acc * 10 + d)
  | none => (acc, c :: cs)

/-- Parse an optionally negated decimal integer. -/
def parseInt : List Char → Option (Int × List Char)
| [] => none
| c :: cs =>
  if c = '-' then
    let p := parseNatAux cs 0
    some (-(p.1 : Int), p.2)
  else
    let p := parseNatAux (c :: cs) 0
    some ((p.1 : Int), p.2)

/-- Parse `null` or an integer. -/
def parseOptInt (s : List Char) : Option (Option Int × List Char) :=
  match expectLit "null".data s with
  | some r => some (none, r)
  | none =>
    match parseInt s with
    | some (i, r) => some (some i, r)
    | none => none

/-- Hexadecimal digit value (lowercase, as emitted). -/
def hexVal (c : Char) : Option Nat :=
  match digitVal c with
  | some d => some d
  | none =>
    if c = 'a' then some 10
    else if c = 'b' then some 11
    else if c = 'c' then some 12
    else if c = 'd' then some 13
    else if c = 'e' then some 14
    else if c = 'f' then some 15
    else none

/-- Parse exactly four hex digits. -/
def parseHex4 : List Char → Option (Nat × List Char)
| a :: b :: c :: d :: rest =>
  match hexVal a, hexVal b, hexVal c, hexVal d with
  | some x, some y, some z, some w => some (x * 4096 + y * 256 + z * 16 + w, rest)
  | _, _, _, _ => none
| _ => none

/-- Parse one escape sequence (the part after the backslash), combining
surrogate pairs as the CPython JSON scanner does. -/
def parseEscape : List Char → Option (Char × List Char)
| [] => none
| c :: cs =>
  if c = '"' then some ('"', cs)
  else if c = '\\' then some ('\\', cs)
  else if c = '/' then some ('/', cs)
  else if c = 'n' then some ('\n', cs)
  else if c = 'r' then some ('\r', cs)
  else if c = 't' then some ('\t', cs)
  else if c = 'b' then some (Char.ofNat 8, cs)
  else if c = 'f' then some (Char.ofNat 12, cs)
  else if c = 'u' then
    match parseHex4 cs with
    | none => none
    | some (h, cs2) =>
      if 55296 ≤ h ∧ h < 56320 then
        match cs2 with
        | b1 :: u1 :: cs3 =>
          if b1 = '\\' ∧ u1 = 'u' then
            match parseHex4 cs3 with
            | some (l, cs4) =>
              if 56320 ≤ l ∧ l < 57344 then
                some (Char.ofNat (65536 + ((h - 55296) * 1024 + (l - 56320))), cs4)
              else none
            | none => none
          else none
        | _ => none
      else some (Char.ofNat h, cs2)
  else none

/-- Parse the body of a string literal up to the closing quote;
`fuel` bounds the recursion. -/
def parseJStringAux : Nat → List Char → List Char → Option (String × List Char)
| 0, _, _ => none
| _ + 1, [], _ => none
| fuel + 1, c :: cs, acc =>
  if c = '"' then some (String.mk acc.reverse, cs)
  else if c = '\\' then
    match parseEscape cs with
    | some (d, cs2) => parseJStringAux fuel cs2 (d :: acc)
    | none => none
  else parseJStringAux fuel cs (c :: acc)

/-- Parse a JSON string literal. -/
def parseJString : List Char → Option (String × List Char)
| [] => none
| c :: cs => if c = '"' then parseJStringAux (cs.length + 1) cs [] else none

/-- Parse the remaining elements of a nonempty `suppliers` array. -/
def parseSupplItems : Nat → List Char → List String → Option (List String × List Char)
| 0, _, _ => none
| fuel + 1, s, acc =>
  match parseJString s with
  | none => none
  | some (str, r) =>
    match expectLit kSupSep r with
    | some r2 => parseSupplItems fuel r2 (str :: acc)
    | none =>
      match expectLit kSupClose r with
      | some r2 => some (acc.reverse ++ [str], r2)
      | none => none

/-- Parse a `suppliers` array in the canonical dumped layout. -/
def parseSuppliers (s : List Char) : Option (List String × List Char) :=
  match expectLit kEmpty s with
  | some r => some ([], r)
  | none =>
    match expectLit kSupOpen s with
    | some r => parseSupplItems (r.length + 1) r []
    | none => none

/-- Parse the `name` and `site` fields of a record object. -/
def parseObjStrings (s : List Char) : Option (String × String × List Char) := do
  let s1 ← expectLit kObjOpen s
  let (nm, s2) ← parseJString s1
  let s3 ← expectLit kSite s2
  let (site, s4) ← parseJString s3
  pure (nm, site, s4)

/-- Parse the three cut and overhang-length fields of a record object. -/
def parseObjInts (s : List Char) : Option (Option Int × Option Int × Int × List Char) := do
  let s5 ← expectLit kFwd s
  let (f5, s6) ← parseOptInt s5
  let s7 ← expectLit kRev s6
  let (f3, s8) ← parseOptInt s7
  let s9 ← expectLit kOvL s8
  let (ol, s10) ← parseInt s9
  pure (f5, f3, ol, s10)

/-- Parse the overhang-type and suppliers fields and the closing brace. -/
def parseObjTail (s : List Char) : Option (String × List String × List Char) := do
  let s11 ← expectLit kOvT s
  let (ot, s12) ← parseJString s11
  let s13 ← expectLit kSup s12
  let (sup, s14) ← parseSuppliers s13
  let s15 ← expectLit kObjClose s14
  pure (ot, sup, s15)

/-- Parse one record object in the canonical dumped layout. -/
def parseEnzymeObj (s : List Char) : Option (Enzyme × List Char) := do
  let (nm, site, s4) ← parseObjStrings s
  let (f5, f3, ol, s10) ← parseObjInts s4
  let (ot, sup, s15) ← parseObjTail s10
  pure (⟨nm, site, f5, f3, ol, ot, sup⟩, s15)

/-- Parse the remaining elements of a nonempty top-level array. -/
def parseCatalogItems : Nat → List Char → List Enzyme → Option (List Enzyme × List Char)
| 0, _, _ => none
| fuel + 1, s, acc =>
  match parseEnzymeObj s with
  | none => none
  | some (e, r) =>
    match expectLit kArrSep r with
    | some r2 => parseCatalogItems fuel r2 (e :: acc)
    | none =>
      match expectLit kArrClose r with
      | some r2 => some (acc.reverse ++ [e], r2)
      | none => none

/-- Parse the top-level JSON array of records. -/
def parseCatalog (s : List Char) : Option (List Enzyme × List Char) :=
  match expectLit kEmpty s with
  | some r => some ([], r)
  | none =>
    match expectLit kArrOpen s with
    | some r => parseCatalogItems (r.length + 1) r []
    | none => none

/-- Parse an entire string as a JSON record array (nothing may remain). -/
def parseEnzymesJson (s : String) : Option (List Enzyme) :=
  match parseCatalog s.data with
  | some (es, []) => some es
  | _ => none

/-! ## Run relation for the determinism claim -/

/-- A possible run of the pipeline on `raws`: the serialized output of
some ascending-by-name rearrangement of the filtered records.  The
actual `list.sort` output is one such rearrangement; the relation
abstracts over which one. -/
def RunOutput (raws : List RawEnzyme) (out : String) : Prop :=
  ∃ l : List Enzyme, l.Perm (pipelineFiltered raws) ∧ l.Pairwise nameLe ∧
    out = generate_typescript l

/-! ## Concrete sample entries used by witnesses -/

def rawAatII : RawEnzyme :=
  ⟨"AatII", some "GACGTC", some (some 5), some (some 1), some 4, some (Suppl.str "N")⟩

def rawBamHI : RawEnzyme :=
  ⟨"BamHI", some "GGATCC", some (some 1), some (some 5), some (-4), some (Suppl.str "NR")⟩

def rawNoSite : RawEnzyme :=
  ⟨"BadI", none, some (some 1), some (some 5), some 4, some (Suppl.str "N")⟩

def rawNullCut : RawEnzyme :=
  ⟨"NullI", some "GG", some none, some (some 1), some 0, some Suppl.null⟩

/-! ## Order lemmas -/

theorem strLeB_cons_iff (a b : Char) (as bs : List Char) :
    strLeB (a :: as) (b :: bs) = true ↔
      (a.toNat < b.toNat ∨ (a.toNat = b.toNat ∧ strLeB as bs = true)) := by
  simp only [strLeB]
  by_cases h1 : a.toNat < b.toNat
  · simp [h1]
  · by_cases h2 : b.toNat < a.toNat
    · simp [h1, h2]
      omega
    · have h3 : a.toNat = b.toNat := by omega
      simp [h1, h2, h3]

theorem strLeB_total (x y : List Char) : strLeB x y = true ∨ strLeB y x = true := by
  induction x generalizing y with
  | nil => left; rfl
  | cons a as ih =>
    cases y with
    | nil => right; rfl
    | cons b bs =>
      rw [strLeB_cons_iff, strLeB_cons_iff]
      rcases Nat.lt_trichotomy a.toNat b.toNat with h | h | h
      · left; left; exact h
      · rcases ih bs with h' | h'
        · left; right; exact ⟨h, h'⟩
        · right; right; exact ⟨h.symm, h'⟩
      · right; left; exact h

theorem strLeB_trans {x y z : List Char} (h1 : strLeB x y = true)
    (h2 : strLeB y z = true) : strLeB x z = true := by
  induction x generalizing y z with
  | nil => rfl
  | cons a as ih =>
    cases y with
    | nil => simp [strLeB] at h1
    | cons b bs =>
      cases z with
      | nil => simp [strLeB] at h2
      | cons c cs =>
        rw [strLeB_cons_iff] at h1 h2 ⊢
        rcases h1 with h1 | ⟨h1e, h1t⟩
        · rcases h2 with h2 | ⟨h2e, _⟩
          · left; omega
          · left; omega
        · rcases h2 with h2 | ⟨h2e, h2t⟩
          · left; omega
          · right; exact ⟨by omega, ih h1t h2t⟩

theorem char_toNat_inj {a b : Char} (h : a.toNat = b.toNat) : a = b :=
  Char.ext (UInt32.toNat.inj h)

theorem strLeB_antisymm {x y : List Char} (h1 : strLeB x y = true)
    (h2 : strLeB y x = true) : x = y := by
  induction x generalizing y with
  | nil =>
    cases y with
    | nil => rfl
    | cons b bs => simp [strLeB] at h2
  | cons a as ih =>
    cases y with
    | nil => simp [strLeB] at h1
    | cons b bs =>
      rw [strLeB_cons_iff] at h1 h2
      rcases h1 with h1 | ⟨h1e, h1t⟩
      · rcases h2 with h2 | ⟨h2e, _⟩ <;> omega
      · rcases h2 with h2 | ⟨h2e, h2t⟩
        · omega
        · rw [char_toNat_inj h1e, ih h1t h2t]

instance : IsTotal Enzyme nameLe :=
  ⟨fun a b => strLeB_total a.name.data b.name.data⟩

instance : IsTrans Enzyme nameLe :=
  ⟨fun _ _ _ h1 h2 => strLeB_trans h1 h2⟩

theorem string_data_inj {a b : String} (h : a.data = b.data) : a = b :=
  congrArg String.mk h

/-! ## Pipeline lemmas -/

/-- A record produced by `processEntry` always carries concrete cut
positions: the loop skips entries whose cut fields are absent or null
before extraction runs. -/
theorem processEntry_some_cuts {e : RawEnzyme} {r : Enzyme}
    (h : processEntry e = some r) :
    r.forwardCut ≠ none ∧ r.reverseCut ≠ none := by
  rcases h5 : e.fst5 with _ | f5
  · simp [processEntry, h5] at h
  · rcases f5 with _ | x
    · simp [processEntry, h5] at h
    · rcases h3 : e.fst3 with _ | f3
      · simp [processEntry, h5, h3] at h
      · rcases f3 with _ | y
        · simp [processEntry, h5, h3] at h
        · simp only [processEntry, h5, h3] at h
          rcases ho : e.ovhg with _ | o
          · simp [extract_enzyme_data, ho] at h
          · rcases hst : e.site with _ | st
            · simp [extract_enzyme_data, ho, hst] at h
            · rcases hsup : e.suppl with _ | sup
              · simp [extract_enzyme_data, ho, hst, h5, h3, hsup] at h
              · simp [extract_enzyme_data, ho, hst, h5, h3, hsup] at h
                subst h
                simp

/-- The general evaluation of `extract_enzyme_data` on an entry whose
attributes are all present. -/
theorem extract_enzyme_data_eq (nm st : String) (f5 f3 : Option Int) (ov : Int)
    (sup : Suppl) :
    extract_enzyme_data ⟨nm, some st, some f5, some f3, some ov, some sup⟩
      = some ⟨nm, st, f5, f3, (get_overhang_info ov).1, (get_overhang_info ov).2,
          supplField sup⟩ := rfl

/-- Two ascending-by-name rearrangements of the same records with
pairwise-distinct names are the same list. -/
theorem sorted_perm_nodup_eq : ∀ {l₁ l₂ : List Enzyme}, l₁.Perm l₂ →
    l₁.Pairwise nameLe → l₂.Pairwise nameLe →
    (l₁.map Enzyme.name).Nodup → l₁ = l₂ := by
  intro l₁
  induction l₁ with
  | nil =>
    intro l₂ hp _ _ _
    exact hp.nil_eq
  | cons a t₁ ih =>
    intro l₂ hp hs₁ hs₂ hnd
    cases l₂ with
    | nil => exact absurd hp.symm.nil_eq (by simp)
    | cons b t₂ =>
      have hab : a = b := by
        by_contra hne
        have ha2 : a ∈ b :: t₂ := hp.subset (List.mem_cons_self a t₁)
        have hb1 : b ∈ a :: t₁ := hp.symm.subset (List.mem_cons_self b t₂)
        have hat2 : a ∈ t₂ := by
          rcases List.mem_cons.mp ha2 with h | h
          · exact absurd h hne
          · exact h
        have hbt1 : b ∈ t₁ := by
          rcases List.mem_cons.mp hb1 with h | h
          · exact absurd h.symm hne
          · exact h
        have h1 : nameLe a b := (List.pairwise_cons.mp hs₁).1 b hbt1
        have h2 : nameLe b a := (List.pairwise_cons.mp hs₂).1 a hat2
        have heqname : a.name = b.name :=
          string_data_inj (strLeB_antisymm h1 h2)
        have : a.name ∈ t₁.map Enzyme.name := by
          rw [heqname]
          exact List.mem_map_of_mem Enzyme.name hbt1
        exact (List.nodup_cons.mp hnd).1 this
      subst hab
      have ht : t₁.Perm t₂ := hp.cons_inv
      rw [ih ht (List.pairwise_cons.mp hs₁).2 (List.pairwise_cons.mp hs₂).2
        (List.nodup_cons.mp hnd).2]

/-! ## Serialization lemmas -/

theorem mk_data (l : List Char) : (String.mk l).data = l := rfl

theorem generate_typescript_data (es : List Enzyme) :
    (generate_typescript es).data
      = tsHeader.data ++ (jsonCatalog es ++ [';', '\n']) := by
  have h0 : ("" : String).data = [] := rfl
  have h2 : ("\n" : String).data = ['\n'] := rfl
  have h3 : (";" : String).data = [';'] := rfl
  simp [generate_typescript, joinNL, tsHeader, dumpsEnzymes, h0, h2, h3, mk_data]

/-! ## Decoder round-trip lemmas -/

theorem expectLit_append : ∀ (lit rest : List Char), expectLit lit (lit ++ rest) = some rest
| [], _ => rfl
| c :: cs, rest => by simp [expectLit, expectLit_append cs rest]

theorem expectLit_head_ne {c d : Char} (cs ds : List Char) (h : ¬ c = d) :
    expectLit (c :: cs) (d :: ds) = none := by
  simp [expectLit, h]

theorem expectLit_cons_append (c : Char) (cs rest : List Char) :
    expectLit (c :: cs) (c :: (cs ++ rest)) = some rest :=
  expectLit_append (c :: cs) rest

theorem digitVal_digitChar : ∀ d : Nat, d < 10 → digitVal (digitChar d) = some d := by
  decide

theorem natChars_ne_nil (n : Nat) : natChars n ≠ [] := by
  rw [natChars.eq_def]
  split
  · simp
  · simp

theorem natChars_digits : ∀ n : Nat, ∀ c ∈ natChars n, (digitVal c).isSome := by
  intro n
  induction n using Nat.strong_induction_on with
  | _ n ih =>
    by_cases h : n < 10
    · rw [natChars.eq_def, dif_pos h]
      intro c hc
      simp only [List.mem_singleton] at hc
      subst hc
      rw [digitVal_digitChar n h]
      rfl
    · rw [natChars.eq_def, dif_neg h]
      intro c hc
      rcases List.mem_append.mp hc with hm | hm
      · exact ih (n / 10) (Nat.div_lt_self (by omega) (by omega)) c hm
      · simp only [List.mem_singleton] at hm
        subst hm
        rw [digitVal_digitChar (n % 10) (Nat.mod_lt n (by omega))]
        rfl

theorem parseNatAux_digits : ∀ (ds : List Char), (∀ c ∈ ds, (digitVal c).isSome) →
    ∀ (rest : List Char) (acc : Nat),
    parseNatAux (ds ++ rest) acc
      = parseNatAux rest (ds.foldl (fun a c => a * 10 + (digitVal c).getD 0) acc) := by
  intro ds
  induction ds with
  | nil => intro _ rest acc; rfl
  | cons c cs ih =>
    intro h rest acc
    have hc := h c (List.mem_cons_self c cs)
    rcases Option.isSome_iff_exists.mp hc with ⟨d, hd⟩
    rw [List.cons_append]
    simp only [parseNatAux, hd]
    rw [ih (fun x hx => h x (List.mem_cons_of_mem c hx)) rest (acc * 10 + d)]
    simp [hd]

theorem foldl_natChars : ∀ (n : Nat) (acc : Nat),
    (natChars n).foldl (fun a c => a * 10 + (digitVal c).getD 0) acc
      = acc * 10 ^ (natChars n).length + n := by
  intro n
  induction n using Nat.strong_induction_on with
  | _ n ih =>
    intro acc
    by_cases h : n < 10
    · rw [natChars.eq_def, dif_pos h]
      simp [digitVal_digitChar n h]
    · rw [natChars.eq_def, dif_neg h]
      rw [List.foldl_append]
      rw [ih (n / 10) (Nat.div_lt_self (by omega) (by omega)) acc]
      simp only [List.foldl, digitVal_digitChar (n % 10) (Nat.mod_lt n (by omega)),
        Option.getD_some, List.length_append, List.length_singleton]
      rw [pow_succ, ← Nat.mul_assoc]
      have hmod : n / 10 * 10 + n % 10 = n := by omega
      calc (acc * 10 ^ (natChars (n / 10)).length + n / 10) * 10 + n % 10
          = acc * 10 ^ (natChars (n / 10)).length * 10 + (n / 10 * 10 + n % 10) := by ring
        _ = acc * 10 ^ (natChars (n / 10)).length * 10 + n := by rw [hmod]

theorem parseNat_natChars (n : Nat) (c : Char) (cs : List Char)
    (hc : digitVal c = none) :
    parseNatAux (natChars n ++ (c :: cs)) 0 = (n, c :: cs) := by
  rw [parseNatAux_digits (natChars n) (natChars_digits n) (c :: cs) 0]
  rw [foldl_natChars n 0]
  simp only [parseNatAux, hc]
  simp

theorem parseInt_intChars (i : Int) (c : Char) (cs : List Char)
    (hc : digitVal c = none) :
    parseInt (intChars i ++ (c :: cs)) = some (i, c :: cs) := by
  by_cases hneg : i < 0
  · rw [intChars, if_pos hneg, List.cons_append]
    simp only [parseInt, if_pos rfl]
    rw [parseNat_natChars i.natAbs c cs hc]
    have hi : -((i.natAbs : Nat) : Int) = i := by omega
    rw [hi]
    simp
  · rw [intChars, if_neg hneg]
    rcases List.exists_cons_of_ne_nil (natChars_ne_nil i.natAbs) with ⟨c0, cs0, heq⟩
    have hd0 : (digitVal c0).isSome := by
      apply natChars_digits i.natAbs c0
      rw [heq]
      exact List.mem_cons_self c0 cs0
    have hne : ¬ c0 = '-' := by
      intro hcon
      rw [hcon] at hd0
      exact absurd hd0 (by decide)
    rw [heq, List.cons_append]
    simp only [parseInt, if_neg hne]
    rw [← List.cons_append, ← heq, parseNat_natChars i.natAbs c cs hc]
    have hi : ((i.natAbs : Nat) : Int) = i := by omega
    simp [hi]

theorem parseOptInt_rt (oi : Option Int) (c : Char) (cs : List Char)
    (hc : digitVal c = none) :
    parseOptInt (jsonOptInt oi ++ (c :: cs)) = some (oi, c :: cs) := by
  cases oi with
  | none =>
    show parseOptInt ("null".data ++ (c :: cs)) = some (none, c :: cs)
    unfold parseOptInt
    rw [expectLit_append]
  | some i =>
    show parseOptInt (intChars i ++ (c :: cs)) = some (some i, c :: cs)
    have hnull : expectLit "null".data (intChars i ++ (c :: cs)) = none := by
      have hn : "null".data = 'n' :: "ull".data := rfl
      by_cases hneg : i < 0
      · rw [intChars, if_pos hneg, List.cons_append, hn]
        exact expectLit_head_ne _ _ (by decide)
      · rw [intChars, if_neg hneg]
        rcases List.exists_cons_of_ne_nil (natChars_ne_nil i.natAbs) with ⟨c0, cs0, heq⟩
        have hd0 : (digitVal c0).isSome := by
          apply natChars_digits i.natAbs c0
          rw [heq]
          exact List.mem_cons_self c0 cs0
        have hne : ¬ ('n' = c0) := by
          intro hcon
          rw [← hcon] at hd0
          exact absurd hd0 (by decide)
        rw [heq, List.cons_append, hn]
        exact expectLit_head_ne _ _ hne
    unfold parseOptInt
    rw [hnull, parseInt_intChars i c cs hc]

theorem char_valid_range (c : Char) :
    c.toNat < 55296 ∨ (57343 < c.toNat ∧ c.toNat < 1114112) := c.valid

theorem hexVal_hexDigitChar : ∀ d : Nat, d < 16 → hexVal (hexDigitChar d) = some d := by
  decide

theorem parseHex4_hex4 (n : Nat) (rest : List Char) (h : n < 65536) :
    parseHex4 (hex4 n ++ rest) = some (n, rest) := by
  have h1 : n / 4096 % 16 < 16 := Nat.mod_lt _ (by omega)
  have h2 : n / 256 % 16 < 16 := Nat.mod_lt _ (by omega)
  have h3 : n / 16 % 16 < 16 := Nat.mod_lt _ (by omega)
  have h4 : n % 16 < 16 := Nat.mod_lt _ (by omega)
  have harith : n / 4096 % 16 * 4096 + (n / 256 % 16 * 256 + (n / 16 % 16 * 16 + n % 16))
      = n := by omega
  show parseHex4 (hexDigitChar (n / 4096 % 16) :: hexDigitChar (n / 256 % 16) ::
    hexDigitChar (n / 16 % 16) :: hexDigitChar (n % 16) :: rest) = some (n, rest)
  simp [parseHex4, hexVal_hexDigitChar _ h1, hexVal_hexDigitChar _ h2,
    hexVal_hexDigitChar _ h3, hexVal_hexDigitChar _ h4]
  omega

/-- The `u` branch of `parseEscape`, exposed as an equation. -/
theorem parseEscape_u (rest : List Char) :
    parseEscape ('u' :: rest)
      = match parseHex4 rest with
        | none => none
        | some (h, cs2) =>
          if 55296 ≤ h ∧ h < 56320 then
            match cs2 with
            | b1 :: u1 :: cs3 =>
              if b1 = '\\' ∧ u1 = 'u' then
                match parseHex4 cs3 with
                | some (l, cs4) =>
                  if 56320 ≤ l ∧ l < 57344 then
                    some (Char.ofNat (65536 + ((h - 55296) * 1024 + (l - 56320))), cs4)
                  else none
                | none => none
              else none
            | _ => none
          else some (Char.ofNat h, cs2) := by
  simp [parseEscape]

/-- Escaping one character either yields the character itself (printable,
not a quote or backslash) or a backslash escape that the decoder maps
back to the character. -/
theorem escChar_parse (c : Char) (t : List Char) :
    (escChar c = [c] ∧ ¬ c = '"' ∧ ¬ c = '\\')
    ∨ (∃ tl, escChar c = '\\' :: tl ∧ parseEscape (tl ++ t) = some (c, t)) := by
  by_cases h1 : c = '"'
  · right
    refine ⟨['"'], ?_, ?_⟩
    · rw [escChar, if_pos h1]
    · subst h1
      simp [parseEscape]
  · by_cases h2 : c = '\\'
    · right
      refine ⟨['\\'], ?_, ?_⟩
      · rw [escChar, if_neg h1, if_pos h2]
      · subst h2
        simp [parseEscape]
    · by_cases h3 : c = '\n'
      · right
        refine ⟨['n'], ?_, ?_⟩
        · rw [escChar, if_neg h1, if_neg h2, if_pos h3]
        · subst h3
          simp [parseEscape]
      · by_cases h4 : c = '\r'
        · right
          refine ⟨['r'], ?_, ?_⟩
          · rw [escChar, if_neg h1, if_neg h2, if_neg h3, if_pos h4]
          · subst h4
            simp [parseEscape]
        · by_cases h5 : c = '\t'
          · right
            refine ⟨['t'], ?_, ?_⟩
            · rw [escChar, if_neg h1, if_neg h2, if_neg h3, if_neg h4, if_pos h5]
            · subst h5
              simp [parseEscape]
          · by_cases h6 : c.toNat = 8
            · right
              refine ⟨['b'], ?_, ?_⟩
              · rw [escChar, if_neg h1, if_neg h2, if_neg h3, if_neg h4, if_neg h5,
                  if_pos h6]
              · have hch : Char.ofNat 8 = c := by
                  rw [← h6, Char.ofNat_toNat]
                simp [parseEscape]
                exact hch
            · by_cases h7 : c.toNat = 12
              · right
                refine ⟨['f'], ?_, ?_⟩
                · rw [escChar, if_neg h1, if_neg h2, if_neg h3, if_neg h4, if_neg h5,
                    if_neg h6, if_pos h7]
                · have hch : Char.ofNat 12 = c := by
                    rw [← h7, Char.ofNat_toNat]
                  simp [parseEscape]
                  exact hch
              · by_cases h8 : 32 ≤ c.toNat ∧ c.toNat ≤ 126
                · left
                  refine ⟨?_, h1, h2⟩
                  rw [escChar, if_neg h1, if_neg h2, if_neg h3, if_neg h4, if_neg h5,
                    if_neg h6, if_neg h7, if_pos h8]
                · by_cases h9 : c.toNat < 65536
                  · right
                    refine ⟨'u' :: hex4 c.toNat, ?_, ?_⟩
                    · rw [escChar, if_neg h1, if_neg h2, if_neg h3, if_neg h4, if_neg h5,
                        if_neg h6, if_neg h7, if_neg h8, if_pos h9]
                    · rw [List.cons_append, parseEscape_u,
                        parseHex4_hex4 c.toNat t h9]
                      have hno : ¬ (55296 ≤ c.toNat ∧ c.toNat < 56320) := by
                        rcases char_valid_range c with h | h <;> omega
                      simp [hno]
                  · right
                    have hrange : 65536 ≤ c.toNat ∧ c.toNat < 1114112 := by
                      rcases char_valid_range c with h | h <;> omega
                    refine ⟨'u' :: (hex4 (55296 + (c.toNat - 65536) / 1024)
                      ++ ('\\' :: 'u' :: hex4 (56320 + (c.toNat - 65536) % 1024))), ?_, ?_⟩
                    · rw [escChar, if_neg h1, if_neg h2, if_neg h3, if_neg h4, if_neg h5,
                        if_neg h6, if_neg h7, if_neg h8, if_neg h9]
                      simp
                    · rw [List.cons_append, parseEscape_u, List.append_assoc,
                        List.cons_append, List.cons_append]
                      have e1 : parseHex4 (hex4 (55296 + (c.toNat - 65536) / 1024)
                          ++ ('\\' :: 'u' :: (hex4 (56320 + (c.toNat - 65536) % 1024) ++ t)))
                          = some (55296 + (c.toNat - 65536) / 1024,
                              '\\' :: 'u' :: (hex4 (56320 + (c.toNat - 65536) % 1024) ++ t)) :=
                        parseHex4_hex4 _ _ (by omega)
                      have e2 : parseHex4 (hex4 (56320 + (c.toNat - 65536) % 1024) ++ t)
                          = some (56320 + (c.toNat - 65536) % 1024, t) :=
                        parseHex4_hex4 _ _ (by omega)
                      have hc1 : 55296 ≤ 55296 + (c.toNat - 65536) / 1024
                          ∧ 55296 + (c.toNat - 65536) / 1024 < 56320 := by omega
                      have hc2 : 56320 ≤ 56320 + (c.toNat - 65536) % 1024
                          ∧ 56320 + (c.toNat - 65536) % 1024 < 57344 := by omega
                      simp [e1, e2, hc1, hc2]
                      rw [show 65536 + ((c.toNat - 65536) / 1024 * 1024
                        + (c.toNat - 65536) % 1024) = c.toNat from by omega,
                        Char.ofNat_toNat]

theorem jsonStringChars_len (s : String) : 2 ≤ (jsonStringChars s).length := by
  simp [jsonStringChars]

theorem parseJStringAux_rt : ∀ (l : List Char) (acc rest : List Char) (fuel : Nat),
    (escString l ++ ('"' :: rest)).length ≤ fuel →
    parseJStringAux fuel (escString l ++ ('"' :: rest)) acc
      = some (String.mk (acc.reverse ++ l), rest) := by
  intro l
  induction l with
  | nil =>
    intro acc rest fuel hlen
    simp only [escString, List.nil_append] at hlen ⊢
    cases fuel with
    | zero =>
      simp at hlen
    | succ f =>
      simp [parseJStringAux]
  | cons c l ih =>
    intro acc rest fuel hlen
    rw [show escString (c :: l) = escChar c ++ escString l from rfl,
      List.append_assoc] at hlen ⊢
    rcases escChar_parse c (escString l ++ ('"' :: rest)) with ⟨hesc, hq, hb⟩ | ⟨tl, hesc, hp⟩
    · rw [hesc] at hlen ⊢
      simp only [List.singleton_append] at hlen ⊢
      cases fuel with
      | zero =>
        simp at hlen
      | succ f =>
        simp only [parseJStringAux, if_neg hq, if_neg hb]
        rw [ih (c :: acc) rest f (by simp at hlen ⊢; omega)]
        simp [List.append_assoc]
    · rw [hesc] at hlen ⊢
      simp only [List.cons_append] at hlen ⊢
      cases fuel with
      | zero =>
        simp at hlen
      | succ f =>
        simp only [parseJStringAux, if_neg (by decide : ¬ ('\\' : Char) = '"'),
          if_pos (rfl : ('\\' : Char) = '\\'), hp]
        rw [ih (c :: acc) rest f (by simp at hlen ⊢; omega)]
        simp [List.append_assoc]

theorem parseJString_rt (s : String) (rest : List Char) :
    parseJString (jsonStringChars s ++ rest) = some (s, rest) := by
  rw [show jsonStringChars s ++ rest = '"' :: (escString s.data ++ ('"' :: rest)) from by
    simp [jsonStringChars]]
  simp only [parseJString, if_pos (rfl : ('"' : Char) = '"')]
  rw [parseJStringAux_rt s.data [] rest _ (Nat.le_succ _)]
  rfl

theorem parseSupplItems_rt : ∀ (items : List String) (s0 : String) (acc : List String)
    (rest : List Char) (fuel : Nat),
    (jsonStringChars s0 ++ (suppliersTail items ++ (kSupClose ++ rest))).length ≤ fuel →
    parseSupplItems fuel
        (jsonStringChars s0 ++ (suppliersTail items ++ (kSupClose ++ rest))) acc
      = some (acc.reverse ++ (s0 :: items), rest) := by
  intro items
  induction items with
  | nil =>
    intro s0 acc rest fuel hlen
    have h2 := jsonStringChars_len s0
    cases fuel with
    | zero =>
      rw [List.length_append] at hlen
      omega
    | succ f =>
      have hne : expectLit kSupSep (kSupClose ++ rest) = none := by
        rw [show kSupClose = '\n' :: "    ]".data from rfl, List.cons_append,
          show kSupSep = ',' :: "\n      ".data from rfl]
        exact expectLit_head_ne _ _ (by decide)
      simp only [suppliersTail, List.nil_append, parseSupplItems,
        parseJString_rt s0 (kSupClose ++ rest), hne, expectLit_append]
  | cons s1 items ih =>
    intro s0 acc rest fuel hlen
    have h2 := jsonStringChars_len s0
    cases fuel with
    | zero =>
      rw [List.length_append] at hlen
      omega
    | succ f =>
      rw [show suppliersTail (s1 :: items)
        = kSupSep ++ (jsonStringChars s1 ++ suppliersTail items) from rfl] at hlen ⊢
      simp only [List.append_assoc] at hlen ⊢
      simp only [parseSupplItems, parseJString_rt s0 _, expectLit_append]
      rw [ih s1 (s0 :: acc) rest f (by simp [List.length_append] at hlen ⊢; omega)]
      simp

theorem parseSuppliers_rt (l : List String) (rest : List Char) :
    parseSuppliers (suppliersChars l ++ rest) = some (l, rest) := by
  cases l with
  | nil =>
    show parseSuppliers (kEmpty ++ rest) = some ([], rest)
    simp only [parseSuppliers, expectLit_append]
  | cons s ls =>
    rw [show suppliersChars (s :: ls)
      = kSupOpen ++ (jsonStringChars s ++ (suppliersTail ls ++ kSupClose)) from rfl]
    simp only [List.append_assoc]
    have hno : expectLit kEmpty (kSupOpen ++ (jsonStringChars s
        ++ (suppliersTail ls ++ (kSupClose ++ rest)))) = none := by
      rw [show kSupOpen = '[' :: ('\n' :: "      ".data) from rfl,
        show kEmpty = '[' :: (']' :: []) from rfl]
      simp [expectLit]
    simp only [parseSuppliers, hno, expectLit_append]
    rw [parseSupplItems_rt ls s [] rest _ (Nat.le_succ _)]
    simp

theorem parseOptInt_kRev (oi : Option Int) (z : List Char) :
    parseOptInt (jsonOptInt oi ++ (kRev ++ z)) = some (oi, kRev ++ z) :=
  parseOptInt_rt oi ',' ("\n    \"reverseCut\": ".data ++ z) rfl

theorem parseOptInt_kOvL (oi : Option Int) (z : List Char) :
    parseOptInt (jsonOptInt oi ++ (kOvL ++ z)) = some (oi, kOvL ++ z) :=
  parseOptInt_rt oi ',' ("\n    \"overhangLength\": ".data ++ z) rfl

theorem parseInt_kOvT (i : Int) (z : List Char) :
    parseInt (intChars i ++ (kOvT ++ z)) = some (i, kOvT ++ z) :=
  parseInt_intChars i ',' ("\n    \"overhangType\": ".data ++ z) rfl

theorem parseObjStrings_rt (nm site : String) (z : List Char) :
    parseObjStrings (kObjOpen ++ (jsonStringChars nm ++ (kSite ++ (jsonStringChars site ++ z))))
      = some (nm, site, z) := by
  simp only [parseObjStrings]
  rw [expectLit_append]
  simp only [Option.bind_eq_bind, Option.some_bind]
  rw [parseJString_rt]
  simp only [Option.bind_eq_bind, Option.some_bind]
  rw [expectLit_append]
  simp only [Option.bind_eq_bind, Option.some_bind]
  rw [parseJString_rt]
  simp only [Option.bind_eq_bind, Option.some_bind]
  rfl

theorem parseObjInts_rt (f5 f3 : Option Int) (ol : Int) (w : List Char) :
    parseObjInts (kFwd ++ (jsonOptInt f5 ++ (kRev ++ (jsonOptInt f3
        ++ (kOvL ++ (intChars ol ++ (kOvT ++ w)))))))
      = some (f5, f3, ol, kOvT ++ w) := by
  simp only [parseObjInts]
  rw [expectLit_append]
  simp only [Option.bind_eq_bind, Option.some_bind]
  rw [parseOptInt_kRev]
  simp only [Option.bind_eq_bind, Option.some_bind]
  rw [expectLit_append]
  simp only [Option.bind_eq_bind, Option.some_bind]
  rw [parseOptInt_kOvL]
  simp only [Option.bind_eq_bind, Option.some_bind]
  rw [expectLit_append]
  simp only [Option.bind_eq_bind, Option.some_bind]
  rw [parseInt_kOvT]
  simp only [Option.bind_eq_bind, Option.some_bind]
  rfl

theorem parseObjTail_rt (ot : String) (sup : List String) (rest : List Char) :
    parseObjTail (kOvT ++ (jsonStringChars ot ++ (kSup ++ (suppliersChars sup
        ++ (kObjClose ++ rest)))))
      = some (ot, sup, rest) := by
  simp only [parseObjTail]
  rw [expectLit_append]
  simp only [Option.bind_eq_bind, Option.some_bind]
  rw [parseJString_rt]
  simp only [Option.bind_eq_bind, Option.some_bind]
  rw [expectLit_append]
  simp only [Option.bind_eq_bind, Option.some_bind]
  rw [parseSuppliers_rt]
  simp only [Option.bind_eq_bind, Option.some_bind]
  rw [expectLit_append]
  simp only [Option.bind_eq_bind, Option.some_bind]
  rfl

theorem parseEnzymeObj_rt (e : Enzyme) (rest : List Char) :
    parseEnzymeObj (objChars e ++ rest) = some (e, rest) := by
  simp only [objChars, List.append_assoc, parseEnzymeObj]
  rw [parseObjStrings_rt]
  simp only [Option.bind_eq_bind, Option.some_bind]
  rw [parseObjInts_rt]
  simp only [Option.bind_eq_bind, Option.some_bind]
  rw [parseObjTail_rt]
  simp only [Option.bind_eq_bind, Option.some_bind]
  rfl

theorem objChars_length_pos (e : Enzyme) : 0 < (objChars e).length := by
  rw [objChars, show kObjOpen = '\x7b' :: "\n    \"name\": ".data from rfl]
  simp

theorem parseCatalogItems_rt : ∀ (items : List Enzyme) (e0 : Enzyme) (acc : List Enzyme)
    (rest : List Char) (fuel : Nat),
    (objChars e0 ++ (catalogTail items ++ (kArrClose ++ rest))).length ≤ fuel →
    parseCatalogItems fuel
        (objChars e0 ++ (catalogTail items ++ (kArrClose ++ rest))) acc
      = some (acc.reverse ++ (e0 :: items), rest) := by
  intro items
  induction items with
  | nil =>
    intro e0 acc rest fuel hlen
    have hpos := objChars_length_pos e0
    cases fuel with
    | zero =>
      rw [List.length_append] at hlen
      omega
    | succ f =>
      have hne : expectLit kArrSep (kArrClose ++ rest) = none := by
        rw [show kArrClose = '\n' :: "]".data from rfl, List.cons_append,
          show kArrSep = ',' :: "\n  ".data from rfl]
        exact expectLit_head_ne _ _ (by decide)
      simp only [catalogTail, List.nil_append, parseCatalogItems,
        parseEnzymeObj_rt e0 (kArrClose ++ rest), hne, expectLit_append]
  | cons e1 items ih =>
    intro e0 acc rest fuel hlen
    have hpos := objChars_length_pos e0
    cases fuel with
    | zero =>
      rw [List.length_append] at hlen
      omega
    | succ f =>
      rw [show catalogTail (e1 :: items)
        = kArrSep ++ (objChars e1 ++ catalogTail items) from rfl] at hlen ⊢
      simp only [List.append_assoc] at hlen ⊢
      simp only [parseCatalogItems, parseEnzymeObj_rt e0 _, expectLit_append]
      rw [ih e1 (e0 :: acc) rest f (by simp [List.length_append] at hlen ⊢; omega)]
      simp

theorem parseCatalog_rt (es : List Enzyme) (rest : List Char) :
    parseCatalog (jsonCatalog es ++ rest) = some (es, rest) := by
  cases es with
  | nil =>
    show parseCatalog (kEmpty ++ rest) = some ([], rest)
    simp only [parseCatalog, expectLit_append]
  | cons e es2 =>
    rw [show jsonCatalog (e :: es2)
      = kArrOpen ++ (objChars e ++ (catalogTail es2 ++ kArrClose)) from rfl]
    simp only [List.append_assoc]
    have hno : expectLit kEmpty (kArrOpen ++ (objChars e
        ++ (catalogTail es2 ++ (kArrClose ++ rest)))) = none := by
      rw [show kArrOpen = '[' :: ('\n' :: "  ".data) from rfl,
        show kEmpty = '[' :: (']' :: []) from rfl]
      simp [expectLit]
    simp only [parseCatalog, hno, expectLit_append]
    rw [parseCatalogItems_rt es2 e [] rest _ (Nat.le_succ _)]
    simp

theorem embeddedJson_generate (es : List Enzyme) :
    (embeddedJson (generate_typescript es)).data = jsonCatalog es := by
  rw [embeddedJson, mk_data, generate_typescript_data]
  rw [List.drop_left]
  rw [show jsonCatalog es ++ [';', '\n'] = (jsonCatalog es ++ [';']) ++ ['\n'] from by simp]
  rw [List.dropLast_concat, List.dropLast_concat]

/-! ## Claim theorems (first group) -/

/-- C1: `get_overhang_info` is a total pure function on the integers:
stagger `0` gives `(0, "blunt")`, a negative stagger `s` gives
`(abs s, "5'")`, a positive one gives `(s, "3'")`; the length is always
nonnegative and the type characterizes the sign of the stagger. -/
theorem get_overhang_info_spec (s : Int) :
    get_overhang_info s
      = (abs s, if s = 0 then "blunt" else if s < 0 then "5'" else "3'")
    ∧ 0 ≤ (get_overhang_info s).1
    ∧ ((get_overhang_info s).2 = "blunt" ↔ s = 0)
    ∧ ((get_overhang_info s).2 = "5'" ↔ s < 0)
    ∧ ((get_overhang_info s).2 = "3'" ↔ 0 < s) := by
  rcases lt_trichotomy s 0 with h | h | h
  · have hne : s ≠ 0 := by omega
    have hv : get_overhang_info s = (abs s, "5'") := by
      simp [get_overhang_info, hne, h]
    refine ⟨?_, ?_, ?_, ?_, ?_⟩
    · rw [hv]; simp [hne, h]
    · rw [hv]; exact abs_nonneg s
    · rw [hv]
      show ("5'" : String) = "blunt" ↔ s = 0
      exact iff_of_false (by decide) hne
    · rw [hv]; exact iff_of_true rfl h
    · rw [hv]
      show ("5'" : String) = "3'" ↔ 0 < s
      exact iff_of_false (by decide) (by omega)
  · subst h
    refine ⟨by decide, by decide, by decide, by decide, by decide⟩
  · have hne : s ≠ 0 := by omega
    have hnneg : ¬ s < 0 := by omega
    have hv : get_overhang_info s = (abs s, "3'") := by
      simp only [get_overhang_info, if_neg hne, if_neg hnneg]
      rw [abs_of_pos h]
    refine ⟨?_, ?_, ?_, ?_, ?_⟩
    · rw [hv]; simp [hne, hnneg]
    · rw [hv]; exact abs_nonneg s
    · rw [hv]
      show ("3'" : String) = "blunt" ↔ s = 0
      exact iff_of_false (by decide) hne
    · rw [hv]
      show ("3'" : String) = "5'" ↔ s < 0
      exact iff_of_false (by decide) hnneg
    · rw [hv]; exact iff_of_true rfl h

/-- C2: every record in the pipeline output has defined (non-null)
forward and reverse cuts, and any raw entry whose `fst5` or `fst3`
attribute is absent or null contributes nothing to the output. -/
theorem output_cuts_defined (raws : List RawEnzyme) :
    (∀ r, r ∈ buildCatalog raws → r.forwardCut ≠ none ∧ r.reverseCut ≠ none)
    ∧ (∀ e : RawEnzyme,
        (e.fst5 = none ∨ e.fst5 = some none ∨ e.fst3 = none ∨ e.fst3 = some none) →
        processEntry e = none) := by
  constructor
  · intro r hr
    have hperm := List.perm_insertionSort nameLe (pipelineFiltered raws)
    have hr2 : r ∈ pipelineFiltered raws := by
      unfold buildCatalog at hr
      exact hperm.mem_iff.mp hr
    rcases List.mem_filterMap.mp hr2 with ⟨e, _, hpe⟩
    exact processEntry_some_cuts hpe
  · intro e hnull
    rcases h5 : e.fst5 with _ | f5
    · simp [processEntry, h5]
    · rcases f5 with _ | x
      · simp [processEntry, h5]
      · rcases h3 : e.fst3 with _ | f3
        · simp [processEntry, h5, h3]
        · rcases f3 with _ | y
          · simp [processEntry, h5, h3]
          · exfalso
            rcases hnull with h | h | h | h <;> simp [h5, h3] at h

/-- C3: the emitted record list is sorted ascending by `name` under
code-point lexicographic comparison. -/
theorem output_sorted_by_name (raws : List RawEnzyme) :
    (buildCatalog raws).Pairwise nameLe :=
  List.sorted_insertionSort nameLe (pipelineFiltered raws)

/-- C4: an entry on which extraction fails is silently omitted and the
remaining entries are processed unchanged. -/
theorem skip_failed_extraction (pre post : List RawEnzyme) (e : RawEnzyme)
    (h : extract_enzyme_data e = none) :
    buildCatalog (pre ++ e :: post) = buildCatalog (pre ++ post) := by
  have hp : processEntry e = none := by
    unfold processEntry
    split
    · rfl
    · rfl
    · split
      · rfl
      · rfl
      · exact h
  unfold buildCatalog pipelineFiltered
  rw [List.filterMap_append, List.filterMap_append,
    List.filterMap_cons_none hp]

/-- C5: a run of the pipeline is deterministic: the canonical output is
a valid run output, and (given the upstream guarantee of distinct
names) any two run outputs on the same raw catalog are byte-identical,
so the generated text is a function of the raw entries alone. -/
theorem pipeline_deterministic (raws : List RawEnzyme)
    (hnodup : ((pipelineFiltered raws).map Enzyme.name).Nodup) :
    RunOutput raws (generate_typescript (buildCatalog raws))
    ∧ ∀ o₁ o₂, RunOutput raws o₁ → RunOutput raws o₂ → o₁ = o₂ := by
  constructor
  · exact ⟨buildCatalog raws, List.perm_insertionSort nameLe _,
      List.sorted_insertionSort nameLe _, rfl⟩
  · rintro o₁ o₂ ⟨l₁, hp₁, hs₁, rfl⟩ ⟨l₂, hp₂, hs₂, rfl⟩
    have hperm : l₁.Perm l₂ := hp₁.trans hp₂.symm
    have hnd : (l₁.map Enzyme.name).Nodup :=
      (hp₁.map Enzyme.name).nodup_iff.mpr hnodup
    rw [sorted_perm_nodup_eq hperm hs₁ hs₂ hnd]

/-- C6: parsing the JSON array embedded in the generated module (the
text between the fixed header and the closing semicolon-newline) yields
exactly the serialized record list: the same record count and the same
field values as the in-memory catalog built from the raw input. -/
theorem serialize_roundtrip (raws : List RawEnzyme) :
    parseEnzymesJson (embeddedJson (generate_typescript (buildCatalog raws)))
      = some (buildCatalog raws) := by
  have h := parseCatalog_rt (buildCatalog raws) []
  rw [List.append_nil] at h
  simp only [parseEnzymesJson, embeddedJson_generate, h]

/-- C7: the generated module is the fixed header (banner comment, blank
line, type import, blank line, exported constant declaration) followed
by the 2-space-indented JSON dump, a semicolon and a newline; the
string ends with exactly one trailing newline (the final character is a
newline and the one before it is the semicolon). -/
theorem serialize_layout (es : List Enzyme) :
    generate_typescript es = tsHeader ++ (dumpsEnzymes es ++ ";\n")
    ∧ (generate_typescript es).data.getLast? = some '\n'
    ∧ (generate_typescript es).data.dropLast.getLast? = some ';' := by
  have hd := generate_typescript_data es
  refine ⟨?_, ?_, ?_⟩
  · apply string_data_inj
    rw [hd]
    rfl
  · rw [hd]
    rw [show tsHeader.data ++ (jsonCatalog es ++ [';', '\n'])
      = ((tsHeader.data ++ jsonCatalog es) ++ [';']) ++ ['\n'] by simp]
    exact List.getLast?_concat _
  · rw [hd]
    rw [show tsHeader.data ++ (jsonCatalog es ++ [';', '\n'])
      = ((tsHeader.data ++ jsonCatalog es) ++ [';']) ++ ['\n'] by simp]
    rw [List.dropLast_concat]
    exact List.getLast?_concat _

/-- C8: `extract_enzyme_data` maps fields one-for-one, deriving the
overhang from the raw stagger and defaulting a null supplier list to
the empty list; includes the EcoRI example and the null-supplier
example from the specification. -/
theorem extract_field_for_field :
    (∀ (nm st : String) (f5 f3 : Option Int) (ov : Int) (sup : Suppl),
      extract_enzyme_data ⟨nm, some st, some f5, some f3, some ov, some sup⟩
        = some ⟨nm, st, f5, f3, (get_overhang_info ov).1,
            (get_overhang_info ov).2, supplField sup⟩)
    ∧ extract_enzyme_data ⟨"EcoRI", some "GAATTC", some (some 1), some (some (-1)),
        some (-4), some (Suppl.list ["N", "R"])⟩
        = some ⟨"EcoRI", "GAATTC", some 1, some (-1), 4, "5'", ["N", "R"]⟩
    ∧ extract_enzyme_data ⟨"SmaI", some "CCCGGG", some (some 3), some (some 3),
        some 0, some Suppl.null⟩
        = some ⟨"SmaI", "CCCGGG", some 3, some 3, 0, "blunt", []⟩ :=
  ⟨fun nm st f5 f3 ov sup => extract_enzyme_data_eq nm st f5 f3 ov sup,
    by decide, by decide⟩

/-- C9: the supplier default is truthiness-based: every falsy `suppl`
value (null, empty string, empty list) yields `[]`, and a truthy value
yields its element-wise conversion, so a nonempty string becomes the
list of its one-character strings. -/
theorem suppliers_truthiness (nm st : String) (f5 f3 : Option Int) (ov : Int) :
    (∀ v : Suppl, supplTruthy v = false →
      extract_enzyme_data ⟨nm, some st, some f5, some f3, some ov, some v⟩
        = some ⟨nm, st, f5, f3, (get_overhang_info ov).1,
            (get_overhang_info ov).2, []⟩)
    ∧ supplTruthy Suppl.null = false
    ∧ (∀ s : String, supplTruthy (Suppl.str s) = false ↔ s = "")
    ∧ (∀ l : List String, supplTruthy (Suppl.list l) = false ↔ l = [])
    ∧ (∀ s : String, s ≠ "" →
      extract_enzyme_data ⟨nm, some st, some f5, some f3, some ov, some (Suppl.str s)⟩
        = some ⟨nm, st, f5, f3, (get_overhang_info ov).1,
            (get_overhang_info ov).2, s.data.map (fun c => String.singleton c)⟩)
    ∧ (∀ l : List String, l ≠ [] →
      extract_enzyme_data ⟨nm, some st, some f5, some f3, some ov, some (Suppl.list l)⟩
        = some ⟨nm, st, f5, f3, (get_overhang_info ov).1,
            (get_overhang_info ov).2, l⟩) := by
  refine ⟨?_, rfl, ?_, ?_, ?_, ?_⟩
  · intro v hv
    rw [extract_enzyme_data_eq]
    simp [supplField, hv]
  · intro s
    simp [supplTruthy]
  · intro l
    simp [supplTruthy]
  · intro s hs
    rw [extract_enzyme_data_eq]
    simp [supplField, supplTruthy, listOfSuppl, hs]
  · intro l hl
    rw [extract_enzyme_data_eq]
    simp [supplField, supplTruthy, listOfSuppl, hl]

/-- C10: when nothing survives filtering, the generated module is still
well-formed: the header followed by the empty JSON array, semicolon and
newline, and the reported count is zero. -/
theorem empty_catalog_output (raws : List RawEnzyme)
    (h : buildCatalog raws = []) :
    generate_typescript (buildCatalog raws) = tsHeader ++ "[];\n"
    ∧ reportedCount raws = 0 := by
  constructor
  · rw [h]
    apply string_data_inj
    rw [generate_typescript_data]
    rfl
  · rw [reportedCount, h]
    rfl

/-! ## Witnesses -/

theorem output_cuts_defined_witness :
    (⟨"AatII", "GACGTC", some 5, some 1, 4, "3'", ["N"]⟩ : Enzyme).forwardCut ≠ none ∧
    (⟨"AatII", "GACGTC", some 5, some 1, 4, "3'", ["N"]⟩ : Enzyme).reverseCut ≠ none :=
  (output_cuts_defined [rawAatII]).1
    ⟨"AatII", "GACGTC", some 5, some 1, 4, "3'", ["N"]⟩ (by decide)

theorem skip_failed_extraction_witness :
    buildCatalog ([rawAatII] ++ rawNoSite :: [rawBamHI])
      = buildCatalog ([rawAatII] ++ [rawBamHI]) :=
  skip_failed_extraction [rawAatII] [rawBamHI] rawNoSite (by decide)

theorem pipeline_deterministic_witness :
    RunOutput [rawAatII, rawBamHI]
      (generate_typescript (buildCatalog [rawAatII, rawBamHI]))
    ∧ ∀ o₁ o₂, RunOutput [rawAatII, rawBamHI] o₁ →
        RunOutput [rawAatII, rawBamHI] o₂ → o₁ = o₂ :=
  pipeline_deterministic [rawAatII, rawBamHI] (by decide)

theorem suppliers_truthiness_witness :
    extract_enzyme_data ⟨"XbaI", some "TCTAGA", some (some 1), some (some 5),
      some (-4), some (Suppl.str "NR")⟩
      = some ⟨"XbaI", "TCTAGA", some 1, some 5, 4, "5'", ["N", "R"]⟩ := by
  have h := (suppliers_truthiness "XbaI" "TCTAGA" (some 1) (some 5) (-4)).2.2.2.2.1
    "NR" (by decide)
  rw [h]
  decide

theorem empty_catalog_output_witness :
    generate_typescript (buildCatalog [rawNullCut]) = tsHeader ++ "[];\n"
    ∧ reportedCount [rawNullCut] = 0 :=
  empty_catalog_output [rawNullCut] (by decide)

end EnzymeGen
